import Mathlib

set_option maxRecDepth 100000

/-
Verification of the static-site tool-catalog pipeline
(gather_links.py, build_by_month.py, build_colophon.py, build_index.py,
build_dates.py).

The Python sources are shallowly embedded below.  Python strings are Lean
strings; the primitive operations (strip, split, slicing, substring search,
the two regular expressions) are re-implemented structurally over the
underlying character lists so that every definition evaluates inside the
kernel.  Filesystem reads and the git subprocess are inputs of the model
(an environment record of functions); `list(set(...))` is modelled by an
explicit enumeration function constrained only to return the elements of
its input without duplicates, which is exactly the guarantee Python gives
for set iteration across processes.
-/

namespace Tools

/-! ## Python string primitives -/

/-- The ASCII whitespace characters stripped by Python `str.strip()`
(the unicode whitespace characters also stripped by Python cannot occur
in the inputs treated here). -/
def pyIsSpaceB (c : Char) : Bool :=
  c == ' ' || c == '\t' || c == '\n' || c == '\r' || c == '\x0b' || c == '\x0c'

/-- Python `str.strip()`. -/
def pyStrip (s : String) : String :=
  ⟨((s.data.dropWhile pyIsSpaceB).reverse.dropWhile pyIsSpaceB).reverse⟩

def splitCharAux (sep : Char) : List Char → List Char → List String
  | [], acc => [⟨acc.reverse⟩]
  | c :: cs, acc =>
    if c == sep then ⟨acc.reverse⟩ :: splitCharAux sep cs []
    else splitCharAux sep cs (c :: acc)

/-- Python `str.split(sep)` for a one-character separator (keeps empty parts). -/
def pySplitChar (sep : Char) (s : String) : List String :=
  splitCharAux sep s.data []

/-- Python `str.split("\n")`. -/
def pySplitNl (s : String) : List String := pySplitChar '\n' s

def joinBar : List String → String
  | [] => ""
  | [x] => x
  | x :: xs => x ++ "|" ++ joinBar xs

/-- Python `str.split("|", 2)`: at most two splits, the remainder is kept whole. -/
def pySplitBar2 (s : String) : List String :=
  match pySplitChar '|' s with
  | a :: b :: c :: rest => [a, b, joinBar (c :: rest)]
  | parts => parts

/-- Python `" ".join(parts)`. -/
def joinSpace : List String → String
  | [] => ""
  | [x] => x
  | x :: xs => x ++ " " ++ joinSpace xs

/-- Python `"\n".join(parts)`. -/
def joinNl : List String → String
  | [] => ""
  | [x] => x
  | x :: xs => x ++ "\n" ++ joinNl xs

/-- Python slicing `s[:n]` (by code points, as in Python). -/
def pyTake (n : Nat) (s : String) : String := ⟨s.data.take n⟩

/-- Python slicing `s[n:]`. -/
def pyDrop (n : Nat) (s : String) : String := ⟨s.data.drop n⟩

/-- Python `len(s)`. -/
def pyLen (s : String) : Nat := s.data.length

/-- Python code-point comparison `a < b` on strings (lexicographic on the
code-point sequences, exactly CPython string comparison). -/
def lexLt : List Char → List Char → Bool
  | [], [] => false
  | [], _ :: _ => true
  | _ :: _, [] => false
  | a :: as, b :: bs =>
    if a.toNat < b.toNat then true
    else if b.toNat < a.toNat then false
    else lexLt as bs

def pyLt (a b : String) : Bool := lexLt a.data b.data

/-- Python `a <= b` on strings. -/
def pyLe (a b : String) : Bool := !(pyLt b a)

/-- First index of `needle` in `hay`, scanning left to right with explicit
fuel (Python `str.find`, except that absence is `none` instead of `-1`). -/
def listFindSub (needle : List Char) : Nat → List Char → Nat → Option Nat
  | 0, _, _ => none
  | fuel + 1, hay, i =>
    if needle.isPrefixOf hay then some i
    else
      match hay with
      | [] => none
      | _ :: t => listFindSub needle fuel t (i + 1)

/-- Python `hay.find(needle)` as an `Option` over code-point indices. -/
def strFind (hay needle : String) : Option Nat :=
  listFindSub needle.data (hay.data.length + 1) hay.data 0

/-- Python `needle in hay` (substring containment). -/
def strContains (hay needle : String) : Bool := (strFind hay needle).isSome

/-! ## The two regular expressions of gather_links.py -/

/-- A character matched by the class of the URL regular expression
`https?://[^\s<>"]+`. -/
def urlCharB (c : Char) : Bool :=
  !(pyIsSpaceB c) && c != '<' && c != '>' && c != '"'

/-- Match a literal character sequence, returning the remainder. -/
def dropLit : List Char → List Char → Option (List Char)
  | [], s => some s
  | _ :: _, [] => none
  | p :: ps, c :: cs => if c == p then dropLit ps cs else none

def matchSchemeRun (scheme : List Char) (s : List Char) :
    Option (List Char × List Char) :=
  match dropLit scheme s with
  | some rest =>
    let run := rest.takeWhile urlCharB
    if run.isEmpty then none else some (scheme ++ run, rest.dropWhile urlCharB)
  | none => none

/-- One leftmost match of `https?://[^\s<>"]+` at the start of `s`
(the optional `s` is tried greedily first, as the regex engine does). -/
def matchURL (s : List Char) : Option (List Char × List Char) :=
  match matchSchemeRun ("https://".data) s with
  | some r => some r
  | none => matchSchemeRun ("http://".data) s

def findURLsAux : Nat → List Char → List String
  | 0, _ => []
  | _ + 1, [] => []
  | fuel + 1, c :: cs =>
    match matchURL (c :: cs) with
    | some (url, rest) => (⟨url⟩ : String) :: findURLsAux fuel rest
    | none => findURLsAux fuel cs

/-- Python `re.findall(r'https?://[^\s<>"]+', message)`: non-overlapping
leftmost matches with the greedy character-class run. -/
def findURLs (message : String) : List String :=
  findURLsAux message.data.length message.data

/-- Case-insensitive literal match used by the IGNORECASE title pattern. -/
def dropLitCi : List Char → List Char → Option (List Char)
  | [], s => some s
  | _ :: _, [] => none
  | p :: ps, c :: cs => if c.toLower == p.toLower then dropLitCi ps cs else none

def titleScan : Nat → List Char → Option String
  | 0, _ => none
  | _ + 1, [] => none
  | fuel + 1, c :: cs =>
    match dropLitCi ("<title>".data) (c :: cs) with
    | some rest =>
      let run := rest.takeWhile (fun ch => ch != '<')
      if run.isEmpty then titleScan fuel cs
      else
        match dropLitCi ("</title>".data) (rest.dropWhile (fun ch => ch != '<')) with
        | some _ => some ⟨run⟩
        | none => titleScan fuel cs
    | none => titleScan fuel cs

/-- Python `re.search(r"<title>([^<]+)</title>", content, re.IGNORECASE)`:
the capture group of the leftmost match.  (Because the class excludes `<`
and the closing literal starts with `<`, the greedy run needs no
backtracking.) -/
def findTitleTag (content : String) : Option String :=
  titleScan content.data.length content.data

/-! ## Data model -/

/-- One parsed line of `git log --format=%H|%aI|%s`: a ChangeRecord. -/
structure Commit where
  hash : String
  date : String
  message : String
  urls : List String
deriving DecidableEq

/-- One record of tools.json (a ToolRecord). -/
structure Tool where
  slug : String
  title : String
  description : String
  url : String
  created : String
  updated : String
deriving DecidableEq

/-- One value of gathered_links.json (an ArtifactHistory entry). -/
structure GatheredEntry where
  file : String
  commits : List Commit
  all_urls : List String
deriving DecidableEq

/-- The external state a pipeline run reads: the sorted `*.html` glob,
the git query (`Except` failure models `subprocess.CalledProcessError`),
and file contents (`none` models a missing or unreadable file). -/
structure Env where
  htmlFiles : List String
  gitLog : String → Except Unit String
  readFile : String → Option String

/-- A possible enumeration order of a Python `set` of strings: Python
guarantees only that iterating `set(xs)` yields each distinct element of
`xs` exactly once, in an order that depends on the per-process string
hash seed. -/
def PySetEnum (f : List String → List String) : Prop :=
  ∀ l, (f l).Nodup ∧ ∀ x, x ∈ f l ↔ x ∈ l

/-- Append a key unless already present (first-occurrence deduplication,
the key order of a Python dict built by repeated assignment). -/
def keyInsert (ks : List String) (k : String) : List String :=
  if k ∈ ks then ks else ks ++ [k]

/-- One concrete admissible set enumeration: first occurrences in input
order. -/
def setEnumFirst (l : List String) : List String :=
  l.foldl keyInsert []

/-- Another admissible set enumeration: the reverse of `setEnumFirst`. -/
def setEnumRev (l : List String) : List String := (setEnumFirst l).reverse

/-! ## gather_links.py -/

def EXCLUDED_FILES : List String := ["index.html", "colophon.html", "by-month.html"]

def joinDot : List String → String
  | [] => ""
  | [x] => x
  | x :: xs => x ++ "." ++ joinDot xs

/-- `Path(name).stem` for ordinary file names: the name with its final
dot-suffix removed (hidden files without a further dot do not occur among
`*.html` glob results). -/
def stem (s : String) : String :=
  match pySplitChar '.' s with
  | [] => s
  | [_] => s
  | parts => joinDot parts.dropLast

/-- One line of the git log output, split as `line.split("|", 2)` and kept
only when it has three fields; URLs are extracted from the message. -/
def parseLine (line : String) : Option Commit :=
  if line == "" then none
  else
    match pySplitBar2 line with
    | [h, d, m] => some { hash := h, date := d, message := m, urls := findURLs m }
    | _ => none

def parseCommits (stdout : String) : List Commit :=
  (pySplitNl (pyStrip stdout)).filterMap parseLine

/-- `get_file_commit_details`: run `git log --follow --format=%H|%aI|%s -- path`;
a `CalledProcessError` yields the empty history. -/
def get_file_commit_details (env : Env) (path : String) : List Commit :=
  match env.gitLog path with
  | .error _ => []
  | .ok out => parseCommits out

/-- `extract_title`: first `<title>` match of the page, stripped, falling
back to the stem when the file is unreadable or has no match. -/
def extract_title (name : String) (content : Option String) : String :=
  match content with
  | none => stem name
  | some c =>
    match findTitleTag c with
    | some t => pyStrip t
    | none => stem name

/-- Whether a (stripped) line is a markdown header line
(`stripped.startswith("#")`). -/
def startsHash (s : String) : Bool := s.data.head? == some '#'

/-- The scanning loop of `extract_description`: skip header lines, collect
stripped non-blank lines, stop at the first blank line once collection has
started (`in_paragraph`). -/
def descLoop : List String → Bool → List String → List String
  | [], _, acc => acc.reverse
  | line :: rest, inPar, acc =>
    let stripped := pyStrip line
    if startsHash stripped then descLoop rest inPar acc
    else if stripped != "" then descLoop rest true (stripped :: acc)
    else if inPar then acc.reverse
    else descLoop rest inPar acc

/-- `extract_description`: first paragraph of the companion `.docs.md`
file; `none` (absent or unreadable file) yields the empty string. -/
def extract_description (docs : Option String) : String :=
  match docs with
  | none => ""
  | some content =>
    joinSpace (descLoop (pySplitNl (pyStrip content)) false [])

/-- Insertion into a Python dict modelled as an insertion-ordered
association list: re-assignment keeps the original key position. -/
def dictInsert {β : Type} (k : String) (v : β) (m : List (String × β)) :
    List (String × β) :=
  if m.any (fun p => p.1 == k) then
    m.map (fun p => if p.1 == k then (k, v) else p)
  else m ++ [(k, v)]

def dictFind {β : Type} (m : List (String × β)) (k : String) : Option β :=
  (m.find? (fun p => p.1 == k)).map (fun p => p.2)

/-- The ToolRecord built for one surviving artifact. -/
def toolFor (env : Env) (name : String) : Tool :=
  let commits := get_file_commit_details env name
  { slug := stem name
    title := extract_title name (env.readFile name)
    description := extract_description (env.readFile (stem name ++ ".docs.md"))
    url := name
    created := match commits.getLast? with | some c => c.date | none => ""
    updated := match commits.head? with | some c => c.date | none => "" }

/-- The gathered_links.json entry built for one surviving artifact. -/
def entryFor (setEnum : List String → List String) (env : Env) (name : String) :
    GatheredEntry :=
  let commits := get_file_commit_details env name
  { file := name
    commits := commits
    all_urls := setEnum (commits.flatMap Commit.urls) }

/-- The body of the `for html_path in html_files` loop of `gather_links`. -/
def gatherStep (setEnum : List String → List String) (env : Env)
    (acc : List (String × GatheredEntry) × List Tool) (name : String) :
    List (String × GatheredEntry) × List Tool :=
  if name ∈ EXCLUDED_FILES then acc
  else if (get_file_commit_details env name).isEmpty then acc
  else (dictInsert (stem name) (entryFor setEnum env name) acc.1,
        acc.2 ++ [toolFor env name])

/-- Stable insertion of an element arriving after `l`, for a strict Bool
comparison: the element passes over every earlier element it is not
strictly before.  Folding this over a list is exactly Python stable
sorting. -/
def stableInsertBy {α : Type} (lt : α → α → Bool) (x : α) : List α → List α
  | [] => [x]
  | y :: ys => if lt x y then x :: y :: ys else y :: stableInsertBy lt x ys

/-- Python `list.sort(key=...)` / `sorted(..., key=...)`, stable. -/
def stableSortBy {α : Type} (lt : α → α → Bool) (l : List α) : List α :=
  l.foldl (fun acc x => stableInsertBy lt x acc) []

/-- `tools.sort(key=lambda t: t.get("created", ""), reverse=True)`. -/
def sortToolsByCreatedDesc (l : List Tool) : List Tool :=
  stableSortBy (fun a b => pyLt b.created a.created) l

/-- `gather_links`: the pair written to gathered_links.json and tools.json.
`setEnum` is the set-iteration order of this process (see `PySetEnum`). -/
def gather_links (setEnum : List String → List String) (env : Env) :
    List (String × GatheredEntry) × List Tool :=
  let res := env.htmlFiles.foldl (gatherStep setEnum env) ([], [])
  (res.1, sortToolsByCreatedDesc res.2)

/-! ## Shared renderer helpers -/

/-- `format_date` of build_index.py / build_colophon.py:
empty stays empty, otherwise the first ten characters (`YYYY-MM-DD`). -/
def format_date (iso : String) : String :=
  if iso == "" then "" else pyTake 10 iso

def monthNames : List String :=
  ["January", "February", "March", "April", "May", "June", "July",
   "August", "September", "October", "November", "December"]

def parseNatDigits (l : List Char) : Nat :=
  l.foldl (fun acc c => acc * 10 + (c.toNat - '0'.toNat)) 0

/-- `format_month` of build_by_month.py, modelling
`datetime.strptime(ym, "%Y-%m").strftime("%B %Y")`: a four-digit year,
a dash and a one- or two-digit month in 1..12 yield the month name and
year; anything else raises ValueError in the source and is returned
unchanged. -/
def format_month (ym : String) : String :=
  match pySplitChar '-' ym with
  | [y, m] =>
    if y.data.length == 4 && y.data.all Char.isDigit
        && (m.data.length == 1 || m.data.length == 2) && m.data.all Char.isDigit
        && 1 ≤ parseNatDigits m.data && parseNatDigits m.data ≤ 12 then
      ((monthNames.get? (parseNatDigits m.data - 1)).getD ym) ++ " " ++
        toString (parseNatDigits y.data)
    else ym
  | _ => ym

/-! ## build_by_month.py -/

/-- Append a tool to the month bucket of a `defaultdict(list)` modelled as
an insertion-ordered association list. -/
def multiAppend (k : String) (t : Tool) (m : List (String × List Tool)) :
    List (String × List Tool) :=
  if m.any (fun p => p.1 == k) then
    m.map (fun p => if p.1 == k then (p.1, p.2 ++ [t]) else p)
  else m ++ [(k, [t])]

/-- The grouping loop of `build_by_month`: tools with a non-empty created
date are appended to the bucket of the first seven characters
(`YYYY-MM`). -/
def byMonthGroups (tools : List Tool) : List (String × List Tool) :=
  tools.foldl
    (fun acc t => if t.created == "" then acc else multiAppend (pyTake 7 t.created) t acc)
    []

def dictLookupL (m : List (String × List Tool)) (k : String) : List Tool :=
  match m.find? (fun p => p.1 == k) with
  | some p => p.2
  | none => []

/-- `sorted(by_month.keys(), reverse=True)`. -/
def sortedMonthsOf (tools : List Tool) : List String :=
  stableSortBy (fun a b => pyLt b a) ((byMonthGroups tools).map Prod.fst)

/-- Each emitted month section: the bucket sorted ascending by created
date (`month_tools.sort(key=lambda t: t.get("created", ""))`). -/
def byMonthSections (tools : List Tool) : List (String × List Tool) :=
  (sortedMonthsOf tools).map
    (fun k => (k, stableSortBy (fun a b => pyLt a.created b.created)
                    (dictLookupL (byMonthGroups tools) k)))

/-- The description shown for one entry: `description[:150] + "..."` when
longer than 150 characters, verbatim otherwise. -/
def shortDescOf (description : String) : String :=
  if 150 < pyLen description then pyTake 150 description ++ "..." else description

/-- One `tool-item` block of build_by_month.py. -/
def renderToolItem (t : Tool) : String :=
  "<div class=\"tool-item\">\n"
  ++ "<a href=\"" ++ t.url ++ "\">" ++ t.title ++ "</a>\n"
  ++ (if t.description == "" then ""
      else "<span class=\"tool-description\">" ++ shortDescOf t.description ++ "</span>\n")
  ++ "<span class=\"tool-links\"><a href=\"colophon.html#" ++ t.slug
  ++ "\">history</a></span>\n"
  ++ "</div>\n"

def monthSectionHtml (k : String) (month_tools : List Tool) : String :=
  "<div class=\"month-section\">\n"
  ++ "<h2 id=\"month-" ++ k ++ "\">" ++ format_month k ++ "</h2>\n"
  ++ month_tools.foldl (fun acc t => acc ++ renderToolItem t) ""
  ++ "</div>\n"

def byMonthTocHtml (tools : List Tool) : String :=
  "<div class=\"toc\">\n<strong>Jump to:</strong>\n<ul>\n"
  ++ joinNl ((sortedMonthsOf tools).map (fun k =>
        "<li><a href=\"#month-" ++ k ++ "\">" ++ format_month k ++ "</a> ("
        ++ toString (dictLookupL (byMonthGroups tools) k).length ++ ")</li>"))
  ++ "\n</ul>\n</div>"

def byMonthContentHtml (tools : List Tool) : String :=
  joinNl ((byMonthSections tools).map (fun p => monthSectionHtml p.1 p.2))

/-- The fixed text of build_by_month.py around the `toc` and `content`
format slots.  The head, CSS and navigation bytes are constant and
irrelevant to every claim, so they are abbreviated here. -/
def byMonthTemplateHead : String :=
  "<!DOCTYPE html>[fixed head, styles and navigation]<h1>Tools by Month</h1>\n    "

def byMonthTemplateTail : String := "\n</body>\n</html>\n"

def byMonthPage (toc content : String) : String :=
  byMonthTemplateHead ++ toc ++ "\n    " ++ content ++ byMonthTemplateTail

/-- `build_by_month`: `none` with a diagnostic when tools.json is absent,
otherwise the rendered document and the success message. -/
def build_by_month (toolsJson : Option (List Tool)) : Option String × List String :=
  match toolsJson with
  | none => (none, ["tools.json not found - run gather_links.py first"])
  | some tools =>
    (some (byMonthPage (byMonthTocHtml tools) (byMonthContentHtml tools)),
     ["Built by-month.html with " ++ toString (sortedMonthsOf tools).length ++ " months"])

/-! ## build_colophon.py -/

/-- `{t["slug"]: t for t in tools}`: on duplicate slugs the later record
wins, so lookup searches the reversed list. -/
def toolsBySlug (toolsJson : Option (List Tool)) (s : String) : Option Tool :=
  match toolsJson with
  | none => none
  | some tools => tools.reverse.find? (fun t => t.slug == s)

def colophonCommitHtml (c : Commit) : String :=
  "<div class=\"commit\">\n"
  ++ "<span class=\"commit-date\">" ++ format_date c.date ++ "</span> "
  ++ "<span class=\"commit-hash\">" ++ pyTake 8 c.hash ++ "</span> "
  ++ c.message ++ "\n"
  ++ (if c.urls.isEmpty then ""
      else "<div class=\"commit-urls\">"
        ++ c.urls.foldl (fun acc u =>
            acc ++ "<a href=\"" ++ u ++ "\" target=\"_blank\">Transcript</a> ") ""
        ++ "</div>\n")
  ++ "</div>\n"

def colophonToolHtml (toolsJson : Option (List Tool)) (slug : String)
    (data : GatheredEntry) : String :=
  let commits := data.commits
  let tinfo := toolsBySlug toolsJson slug
  let title := match tinfo with | some t => t.title | none => slug
  let description := match tinfo with | some t => t.description | none => ""
  "<div class=\"tool\" id=\"" ++ slug ++ "\">\n"
  ++ "<h2><a href=\"" ++ data.file ++ "\">" ++ title ++ "</a></h2>\n"
  ++ (if commits.isEmpty then ""
      else "<div class=\"tool-meta\">Created: "
        ++ format_date (match commits.getLast? with | some c => c.date | none => "")
        ++ " | Updated: "
        ++ format_date (match commits.head? with | some c => c.date | none => "")
        ++ " | " ++ toString commits.length ++ " commits</div>\n")
  ++ (if description == "" then ""
      else "<div class=\"description\">" ++ description ++ "</div>\n")
  ++ (if commits.isEmpty then ""
      else "<details>\n<summary>Commit history (" ++ toString commits.length
        ++ ")</summary>\n"
        ++ commits.foldl (fun acc c => acc ++ colophonCommitHtml c) ""
        ++ "</details>\n")
  ++ "</div>\n"

/-- The sort key of `sorted_slugs`: date of the newest commit of that
slug, or the empty string. -/
def colophonKeyOf (gathered : List (String × GatheredEntry)) (s : String) : String :=
  match dictFind gathered s with
  | some e => match e.commits.head? with | some c => c.date | none => ""
  | none => ""

def colophonSortedSlugs (gathered : List (String × GatheredEntry)) : List String :=
  stableSortBy (fun a b => pyLt (colophonKeyOf gathered b) (colophonKeyOf gathered a))
    (gathered.map Prod.fst)

/-- The fixed text of build_colophon.py around the `content` slot
(head, CSS, navigation and the page introduction), abbreviated. -/
def colophonTemplateHead : String :=
  "<!DOCTYPE html>[fixed head, styles and navigation]<h1>Colophon</h1>\n    <p>Development history of all tools, sorted by most recent activity.</p>\n    "

def colophonTemplateTail : String := "\n</body>\n</html>\n"

def build_colophon (gatheredJson : Option (List (String × GatheredEntry)))
    (toolsJson : Option (List Tool)) : Option String × List String :=
  match gatheredJson with
  | none => (none, ["gathered_links.json not found - run gather_links.py first"])
  | some gathered =>
    let slugs := colophonSortedSlugs gathered
    let content := joinNl (slugs.map (fun s =>
      colophonToolHtml toolsJson s ((dictFind gathered s).getD
        { file := s ++ ".html", commits := [], all_urls := [] })))
    (some (colophonTemplateHead ++ content ++ colophonTemplateTail),
     ["Built colophon.html with " ++ toString slugs.length ++ " tools"])

/-! ## build_index.py -/

def RECENT_LIMIT : Nat := 5

def sortToolsByUpdatedDesc (l : List Tool) : List Tool :=
  stableSortBy (fun a b => pyLt b.updated a.updated) l

/-- `sorted(tools, key=lambda t: t.get("created", ""), reverse=True)[:RECENT_LIMIT]`. -/
def byCreatedOf (tools : List Tool) : List Tool :=
  (sortToolsByCreatedDesc tools).take RECENT_LIMIT

/-- The collection loop for recently updated tools: walk the
updated-descending list, skip slugs already shown as recently added,
stop as soon as `RECENT_LIMIT` are collected. -/
def recentlyUpdatedLoop (addedSlugs : List String) :
    List Tool → List Tool → List Tool
  | [], acc => acc.reverse
  | t :: ts, acc =>
    if addedSlugs.contains t.slug then recentlyUpdatedLoop addedSlugs ts acc
    else if RECENT_LIMIT ≤ (t :: acc).length then (t :: acc).reverse
    else recentlyUpdatedLoop addedSlugs ts (t :: acc)

def recentlyUpdatedOf (tools : List Tool) : List Tool :=
  recentlyUpdatedLoop ((byCreatedOf tools).map Tool.slug)
    (sortToolsByUpdatedDesc tools) []

/-- One `<li>` of a recent list, with the optional date span. -/
def recentLi (dateOf : Tool → String) (t : Tool) : String :=
  let date := format_date (dateOf t)
  "<li><a href=\"" ++ t.url ++ "\">" ++ t.title ++ "</a>"
  ++ (if date == "" then "" else " <span class=\"recent-date\">(" ++ date ++ ")</span>")
  ++ "</li>\n"

def recentListHtml (dateOf : Tool → String) (l : List Tool) : String :=
  l.foldl (fun acc t => acc ++ recentLi dateOf t) ""

/-- `build_recent_section`. -/
def build_recent_section (tools : List Tool) : String :=
  if tools.isEmpty then ""
  else
    "<div class=\"recent-section\">\n"
    ++ "<h2>Recently Added</h2>\n<ul>\n"
    ++ recentListHtml Tool.created (byCreatedOf tools) ++ "</ul>\n"
    ++ (if (recentlyUpdatedOf tools).isEmpty then ""
        else "<h2>Recently Updated</h2>\n<ul>\n"
          ++ recentListHtml Tool.updated (recentlyUpdatedOf tools) ++ "</ul>\n")
    ++ "</div>"

/-- The title scan of `build_index`: the first line starting with
`"# "`, with the marker removed and the rest stripped; default "Tools". -/
def indexTitleOf (md : String) : String :=
  match (pySplitNl md).find? (fun l => ("# ".data).isPrefixOf l.data) with
  | some l => pyStrip (pyDrop 2 l)
  | none => "Tools"

/-- The digest injection of `build_index`: between the two literal marker
comments when both are present, otherwise (when a digest exists) directly
after the first `</h1>`, otherwise nowhere. -/
def injectRecent (body recent : String) : String :=
  let startMarker := "<!-- recently starts -->"
  let endMarker := "<!-- recently stops -->"
  if strContains body startMarker && strContains body endMarker then
    let startIdx := (strFind body startMarker).getD 0 + pyLen startMarker
    let endIdx := (strFind body endMarker).getD 0
    pyTake startIdx body ++ "\n" ++ recent ++ "\n" ++ pyDrop endIdx body
  else if recent != "" then
    match strFind body "</h1>" with
    | some i => pyTake (i + 5) body ++ "\n" ++ recent ++ pyDrop (i + 5) body
    | none => body
  else body

/-- The fixed text of build_index.py around the `title` and `body`
format slots, abbreviated. -/
def indexTemplateHead : String := "<!DOCTYPE html>[fixed head start]<title>"

def indexTemplateMid : String := "</title>[fixed styles]</head>\n<body>\n"

def indexTemplateTail : String :=
  "\n<script type=\"module\" src=\"homepage-search.js\" data-tool-search></script>\n</body>\n</html>\n"

/-- `build_index`: the markdown conversion is the external collaborator
`conv`; README.md is the required input, tools.json is optional. -/
def build_index (conv : String → String) (readme : Option String)
    (toolsJson : Option (List Tool)) : Option String × List String :=
  match readme with
  | none => (none, ["README.md not found"])
  | some md =>
    let title := indexTitleOf md
    let recent := match toolsJson with
      | some tools => build_recent_section tools
      | none => ""
    let body := injectRecent (conv md) recent
    (some (indexTemplateHead ++ title ++ indexTemplateMid ++ body ++ indexTemplateTail),
     ["Built index.html"])

/-! ## build_dates.py -/

/-- `build_dates`: for every gathered artifact with at least one commit,
map its output file to the date (first ten characters) of the newest
commit. -/
def build_dates (gatheredJson : Option (List (String × GatheredEntry))) :
    Option (List (String × String)) × List String :=
  match gatheredJson with
  | none => (none, ["gathered_links.json not found - run gather_links.py first"])
  | some gathered =>
    let dates := gathered.foldl (fun acc p =>
      match p.2.commits.head? with
      | some c => dictInsert p.2.file (pyTake 10 c.date) acc
      | none => acc) []
    (some dates, ["Built dates.json with " ++ toString dates.length ++ " entries"])

/-! ## Lemmas: strings -/

theorem str_append_empty (s : String) : s ++ "" = s := by
  cases s with
  | mk d =>
    show String.mk (d ++ []) = String.mk d
    rw [List.append_nil]

theorem str_empty_append (s : String) : "" ++ s = s := by
  cases s with
  | mk d => rfl

theorem char_eq_of_toNat_eq {a b : Char} (h : a.toNat = b.toNat) : a = b :=
  Char.eq_of_val_eq (UInt32.eq_of_toBitVec_eq (BitVec.eq_of_toNat_eq h))

theorem lexLt_irrefl (a : List Char) : lexLt a a = false := by
  induction a with
  | nil => rfl
  | cons x xs ih => simp [lexLt, ih]

theorem lexLt_asymm : ∀ (a b : List Char), lexLt a b = true → lexLt b a = false := by
  intro a
  induction a with
  | nil =>
    intro b h
    cases b with
    | nil => simp [lexLt] at h
    | cons y ys => rfl
  | cons x xs ih =>
    intro b h
    cases b with
    | nil => simp [lexLt] at h
    | cons y ys =>
      by_cases h1 : x.toNat < y.toNat
      · have h2 : ¬ y.toNat < x.toNat := Nat.lt_asymm h1
        simp [lexLt, h1, h2]
      · by_cases h2 : y.toNat < x.toNat
        · simp [lexLt, h1, h2] at h
        · simp [lexLt, h1, h2] at h ⊢
          exact ih ys h

theorem lexLt_le_trans :
    ∀ (a b c : List Char), lexLt b a = false → lexLt c b = false → lexLt c a = false := by
  intro a
  induction a with
  | nil =>
    intro b c hba hcb
    cases c with
    | nil => rfl
    | cons z cs => rfl
  | cons x as ih =>
    intro b c hba hcb
    cases b with
    | nil => simp [lexLt] at hba
    | cons y bs =>
      cases c with
      | nil => simp [lexLt] at hcb
      | cons z cs =>
        by_cases hyx : y.toNat < x.toNat
        · simp [lexLt, hyx] at hba
        · by_cases hzy : z.toNat < y.toNat
          · simp [lexLt, hzy] at hcb
          · have hxy : x.toNat ≤ y.toNat := Nat.le_of_not_lt hyx
            have hyz : y.toNat ≤ z.toNat := Nat.le_of_not_lt hzy
            have hzx : ¬ z.toNat < x.toNat :=
              Nat.not_lt.mpr (Nat.le_trans hxy hyz)
            by_cases hxz : x.toNat < z.toNat
            · simp [lexLt, hzx, hxz]
            · have hx_eq : x.toNat = y.toNat := by omega
              have hy_eq : y.toNat = z.toNat := by omega
              have hxy' : ¬ x.toNat < y.toNat := by omega
              have hyz' : ¬ y.toNat < z.toNat := by omega
              simp [lexLt, hzx, hxz]
              simp [lexLt, hyx, hxy'] at hba
              simp [lexLt, hzy, hyz'] at hcb
              exact ih bs cs hba hcb

theorem lexLt_eq_of_not_lt :
    ∀ (a b : List Char), lexLt a b = false → lexLt b a = false → a = b := by
  intro a
  induction a with
  | nil =>
    intro b hab hba
    cases b with
    | nil => rfl
    | cons y ys => simp [lexLt] at hab
  | cons x as ih =>
    intro b hab hba
    cases b with
    | nil => simp [lexLt] at hba
    | cons y ys =>
      by_cases hxy : x.toNat < y.toNat
      · simp [lexLt, hxy] at hab
      · by_cases hyx : y.toNat < x.toNat
        · simp [lexLt, hyx] at hba
        · have hx : x = y :=
            char_eq_of_toNat_eq
              (Nat.le_antisymm (Nat.le_of_not_lt hyx) (Nat.le_of_not_lt hxy))
          simp [lexLt, hxy, hyx] at hab hba
          rw [hx, ih ys hab hba]

theorem pyLe_refl (a : String) : pyLe a a = true := by
  simp [pyLe, pyLt, lexLt_irrefl]

theorem pyLe_of_pyLt {a b : String} (h : pyLt a b = true) : pyLe a b = true := by
  simp [pyLe, pyLt] at h ⊢
  exact lexLt_asymm _ _ h

theorem pyLe_of_not_pyLt {a b : String} (h : pyLt b a = false) : pyLe a b = true := by
  simp [pyLe, h]

theorem pyLe_trans {a b c : String} (h1 : pyLe a b = true) (h2 : pyLe b c = true) :
    pyLe a c = true := by
  simp [pyLe, pyLt] at h1 h2 ⊢
  exact lexLt_le_trans a.data b.data c.data h1 h2

theorem pyLt_of_pyLe_of_ne {a b : String} (h1 : pyLe a b = true) (h2 : a ≠ b) :
    pyLt a b = true := by
  simp [pyLe, pyLt] at h1 ⊢
  by_contra hfalse
  simp at hfalse
  exact h2 (String.ext (lexLt_eq_of_not_lt a.data b.data hfalse h1))

/-! ## Lemmas: stable sorting -/

theorem mem_stableInsertBy {α : Type} (lt : α → α → Bool) (x a : α) :
    ∀ (l : List α), a ∈ stableInsertBy lt x l ↔ a = x ∨ a ∈ l := by
  intro l
  induction l with
  | nil => simp [stableInsertBy]
  | cons y ys ih =>
    by_cases h : lt x y
    · simp [stableInsertBy, h]
    · simp [stableInsertBy, h, ih]
      tauto

theorem perm_stableInsertBy {α : Type} (lt : α → α → Bool) (x : α) :
    ∀ (l : List α), (stableInsertBy lt x l).Perm (x :: l) := by
  intro l
  induction l with
  | nil => simp [stableInsertBy]
  | cons y ys ih =>
    by_cases h : lt x y
    · simp [stableInsertBy, h]
    · simp only [stableInsertBy, h, if_neg, Bool.false_eq_true, not_false_iff]
      exact (ih.cons y).trans (List.Perm.swap x y ys)

theorem perm_foldl_stableInsertBy {α : Type} (lt : α → α → Bool) :
    ∀ (l acc : List α),
      (List.foldl (fun acc x => stableInsertBy lt x acc) acc l).Perm (acc ++ l) := by
  intro l
  induction l with
  | nil => intro acc; simp
  | cons x xs ih =>
    intro acc
    rw [List.foldl_cons]
    exact (ih (stableInsertBy lt x acc)).trans
      (((perm_stableInsertBy lt x acc).append_right xs).trans List.perm_middle.symm)

theorem perm_stableSortBy {α : Type} (lt : α → α → Bool) (l : List α) :
    (stableSortBy lt l).Perm l := by
  simpa using perm_foldl_stableInsertBy lt l []

theorem pairwise_stableInsertBy {α : Type} (r : α → α → Prop) (lt : α → α → Bool)
    (hlt : ∀ a b, lt a b = true → r a b)
    (hnlt : ∀ a b, lt a b = false → r b a)
    (htr : ∀ {a b c}, r a b → r b c → r a c) (x : α) :
    ∀ (l : List α), l.Pairwise r → (stableInsertBy lt x l).Pairwise r := by
  intro l
  induction l with
  | nil => intro _; simp [stableInsertBy]
  | cons y ys ih =>
    intro h
    rw [List.pairwise_cons] at h
    obtain ⟨hy, hys⟩ := h
    by_cases hcase : lt x y
    · simp only [stableInsertBy, hcase, if_pos]
      rw [List.pairwise_cons]
      constructor
      · intro z hz
        rcases List.mem_cons.mp hz with hz | hz
        · exact hz ▸ hlt x y hcase
        · exact htr (hlt x y hcase) (hy z hz)
      · rw [List.pairwise_cons]
        exact ⟨hy, hys⟩
    · simp only [stableInsertBy, hcase, if_neg, Bool.false_eq_true, not_false_iff]
      rw [List.pairwise_cons]
      constructor
      · intro z hz
        rcases (mem_stableInsertBy lt x z ys).mp hz with hz | hz
        · exact hz ▸ hnlt x y (Bool.not_eq_true _ ▸ Bool.of_not_eq_true hcase)
        · exact hy z hz
      · exact ih hys

theorem pairwise_stableSortBy {α : Type} (r : α → α → Prop) (lt : α → α → Bool)
    (hlt : ∀ a b, lt a b = true → r a b)
    (hnlt : ∀ a b, lt a b = false → r b a)
    (htr : ∀ {a b c}, r a b → r b c → r a c) (l : List α) :
    (stableSortBy lt l).Pairwise r := by
  have aux : ∀ (l acc : List α), acc.Pairwise r →
      (List.foldl (fun acc x => stableInsertBy lt x acc) acc l).Pairwise r := by
    intro l
    induction l with
    | nil => intro acc h; simpa using h
    | cons x xs ih =>
      intro acc h
      exact ih _ (pairwise_stableInsertBy r lt hlt hnlt htr x acc h)
  simpa [stableSortBy] using aux l [] (by simp)

/-! ## Lemmas: first-occurrence key lists -/

theorem mem_keyInsert (ks : List String) (k x : String) :
    x ∈ keyInsert ks k ↔ x ∈ ks ∨ x = k := by
  unfold keyInsert
  by_cases h : k ∈ ks
  · simp only [h, if_pos]
    constructor
    · exact Or.inl
    · rintro (hx | rfl)
      · exact hx
      · exact h
  · simp [h]

theorem nodup_keyInsert (ks : List String) (k : String) (h : ks.Nodup) :
    (keyInsert ks k).Nodup := by
  unfold keyInsert
  by_cases hk : k ∈ ks
  · simpa [hk] using h
  · simp [hk, List.nodup_append, h]

theorem mem_foldl_keyInsert :
    ∀ (l acc : List String) (x : String),
      x ∈ List.foldl keyInsert acc l ↔ x ∈ acc ∨ x ∈ l := by
  intro l
  induction l with
  | nil => intro acc x; simp
  | cons k ks ih =>
    intro acc x
    rw [List.foldl_cons, ih, mem_keyInsert]
    simp
    tauto

theorem nodup_foldl_keyInsert :
    ∀ (l acc : List String), acc.Nodup → (List.foldl keyInsert acc l).Nodup := by
  intro l
  induction l with
  | nil => intro acc h; simpa using h
  | cons k ks ih =>
    intro acc h
    exact ih _ (nodup_keyInsert acc k h)

theorem pySetEnum_setEnumFirst : PySetEnum setEnumFirst := by
  intro l
  refine ⟨nodup_foldl_keyInsert l [] (by simp), ?_⟩
  intro x
  rw [setEnumFirst, mem_foldl_keyInsert]
  simp

theorem pySetEnum_setEnumRev : PySetEnum setEnumRev := by
  intro l
  obtain ⟨h1, h2⟩ := pySetEnum_setEnumFirst l
  refine ⟨by simpa [setEnumRev] using h1, ?_⟩
  intro x
  rw [setEnumRev, List.mem_reverse]
  exact h2 x

/-! ## The description grammar of the specification -/

/-- Modelled from the specification sentence describing
`extract_description` word for word: skip the LEADING header lines,
then accumulate consecutive non-blank lines into one paragraph, stop at
the first blank line following any accumulated content, and join the
accumulated (stripped) lines with single spaces; no paragraph means the
empty string. -/
def spec_description_claim (docs : Option String) : String :=
  match docs with
  | none => ""
  | some content =>
    let lines := (pySplitNl (pyStrip content)).map pyStrip
    let afterHeaders := lines.dropWhile (fun l => startsHash l)
    joinSpace ((afterHeaders.dropWhile (fun l => l == "")).takeWhile (fun l => l != ""))

/-- The amended description grammar, matching the code: header lines are
skipped WHEREVER they occur (a header line inside the paragraph is
dropped without terminating it); among the remaining stripped lines the
paragraph is the first non-blank run, joined with single spaces. -/
def spec_description_amended (docs : Option String) : String :=
  match docs with
  | none => ""
  | some content =>
    let lines := (pySplitNl (pyStrip content)).map pyStrip
    let noHeaders := lines.filter (fun l => !(startsHash l))
    joinSpace ((noHeaders.dropWhile (fun l => l == "")).takeWhile (fun l => l != ""))

theorem startsHash_empty : startsHash "" = false := rfl

theorem descLoop_true :
    ∀ (lines acc : List String),
      descLoop lines true acc
        = acc.reverse
          ++ ((lines.map pyStrip).filter (fun s => !(startsHash s))).takeWhile
              (fun s => s != "") := by
  intro lines
  induction lines with
  | nil => intro acc; simp [descLoop]
  | cons l ls ih =>
    intro acc
    by_cases hh : startsHash (pyStrip l) = true
    · rw [show descLoop (l :: ls) true acc = descLoop ls true acc from by
        simp [descLoop, hh]]
      rw [ih acc]
      simp [List.filter_cons, hh]
    · have hh' : startsHash (pyStrip l) = false := by simpa using hh
      by_cases hb : pyStrip l = ""
      · rw [show descLoop (l :: ls) true acc = acc.reverse from by
          simp [descLoop, hh', hb, startsHash_empty]]
        simp [List.filter_cons, hh', List.takeWhile_cons, hb, startsHash_empty]
      · rw [show descLoop (l :: ls) true acc = descLoop ls true (pyStrip l :: acc) from by
          simp [descLoop, hh', hb]]
        rw [ih (pyStrip l :: acc)]
        simp [List.filter_cons, hh', List.takeWhile_cons, hb]

theorem descLoop_false :
    ∀ (lines acc : List String),
      descLoop lines false acc
        = acc.reverse
          ++ ((((lines.map pyStrip).filter (fun s => !(startsHash s))).dropWhile
                (fun s => s == "")).takeWhile (fun s => s != "")) := by
  intro lines
  induction lines with
  | nil => intro acc; simp [descLoop]
  | cons l ls ih =>
    intro acc
    by_cases hh : startsHash (pyStrip l) = true
    · rw [show descLoop (l :: ls) false acc = descLoop ls false acc from by
        simp [descLoop, hh]]
      rw [ih acc]
      simp [List.filter_cons, hh]
    · have hh' : startsHash (pyStrip l) = false := by simpa using hh
      by_cases hb : pyStrip l = ""
      · rw [show descLoop (l :: ls) false acc = descLoop ls false acc from by
          simp [descLoop, hh', hb, startsHash_empty]]
        rw [ih acc]
        simp [List.filter_cons, hh', List.dropWhile_cons, hb, startsHash_empty]
      · rw [show descLoop (l :: ls) false acc = descLoop ls true (pyStrip l :: acc) from by
          simp [descLoop, hh', hb]]
        rw [descLoop_true ls (pyStrip l :: acc)]
        simp [List.filter_cons, hh', List.dropWhile_cons, List.takeWhile_cons, hb]

/-- The code and the amended grammar agree on every input. -/
theorem extract_description_eq_amended (docs : Option String) :
    extract_description docs = spec_description_amended docs := by
  cases docs with
  | none => rfl
  | some content =>
    show joinSpace (descLoop (pySplitNl (pyStrip content)) false []) = _
    rw [descLoop_false]
    rfl

/-! ## Lemmas: the gather fold -/

theorem mem_dictInsert {β : Type} (k : String) (v : β) (m : List (String × β))
    (p : String × β) (h : p ∈ dictInsert k v m) : p ∈ m ∨ p = (k, v) := by
  unfold dictInsert at h
  by_cases hc : m.any (fun q => q.1 == k) = true
  · rw [if_pos hc] at h
    obtain ⟨q, hq, hfq⟩ := List.mem_map.mp h
    by_cases hqk : q.1 == k
    · right
      rw [if_pos hqk] at hfq
      exact hfq.symm
    · left
      rw [if_neg hqk] at hfq
      exact hfq ▸ hq
  · rw [if_neg hc] at h
    rcases List.mem_append.mp h with h | h
    · exact Or.inl h
    · exact Or.inr (List.mem_singleton.mp h)

/-- The invariant of the gather loop: every produced entry and tool
belongs to a file whose harvested history is non-empty. -/
def GatherInv (env : Env) (acc : List (String × GatheredEntry) × List Tool) : Prop :=
  (∀ p ∈ acc.1, get_file_commit_details env p.2.file ≠ [])
  ∧ (∀ t ∈ acc.2, get_file_commit_details env t.url ≠ [])

theorem gatherStep_inv (se : List String → List String) (env : Env)
    (acc : List (String × GatheredEntry) × List Tool) (name : String)
    (h : GatherInv env acc) : GatherInv env (gatherStep se env acc name) := by
  unfold gatherStep
  by_cases h1 : name ∈ EXCLUDED_FILES
  · rwa [if_pos h1]
  · rw [if_neg h1]
    by_cases h2 : (get_file_commit_details env name).isEmpty = true
    · rwa [if_pos h2]
    · rw [if_neg h2]
      have hne : get_file_commit_details env name ≠ [] := by
        intro hnil
        exact h2 (by simpa using hnil)
      constructor
      · intro p hp
        rcases mem_dictInsert _ _ _ p hp with hp | hp
        · exact h.1 p hp
        · rw [hp]
          exact hne
      · intro t ht
        rcases List.mem_append.mp ht with ht | ht
        · exact h.2 t ht
        · rw [List.mem_singleton.mp ht]
          exact hne

theorem gather_foldl_inv (se : List String → List String) (env : Env) :
    ∀ (files : List String) (acc : List (String × GatheredEntry) × List Tool),
      GatherInv env acc → GatherInv env (files.foldl (gatherStep se env) acc) := by
  intro files
  induction files with
  | nil => intro acc h; exact h
  | cons f fs ih =>
    intro acc h
    exact ih _ (gatherStep_inv se env acc f h)

theorem gather_links_inv (se : List String → List String) (env : Env) :
    (∀ p ∈ (gather_links se env).1, get_file_commit_details env p.2.file ≠ [])
    ∧ (∀ t ∈ (gather_links se env).2, get_file_commit_details env t.url ≠ []) := by
  have h := gather_foldl_inv se env env.htmlFiles ([], [])
    (And.intro (fun p hp => by cases hp) (fun t ht => by cases ht))
  constructor
  · exact h.1
  · intro t ht
    refine h.2 t ?_
    have hperm := perm_stableSortBy
      (fun a b => pyLt b.created a.created)
      (env.htmlFiles.foldl (gatherStep se env) ([], [])).2
    exact hperm.mem_iff.mp ht

theorem tools_mono (se : List String → List String) (env : Env) (t : Tool) :
    ∀ (files : List String) (acc : List (String × GatheredEntry) × List Tool),
      t ∈ acc.2 → t ∈ (files.foldl (gatherStep se env) acc).2 := by
  intro files
  induction files with
  | nil => intro acc h; exact h
  | cons f fs ih =>
    intro acc h
    refine ih _ ?_
    unfold gatherStep
    by_cases h1 : f ∈ EXCLUDED_FILES
    · rwa [if_pos h1]
    · rw [if_neg h1]
      by_cases h2 : (get_file_commit_details env f).isEmpty = true
      · rwa [if_pos h2]
      · rw [if_neg h2]
        exact List.mem_append_left _ h

theorem toolFor_mem_foldl (se : List String → List String) (env : Env) (name : String)
    (h2 : name ∉ EXCLUDED_FILES) (h3 : (get_file_commit_details env name).isEmpty = false) :
    ∀ (files : List String) (acc : List (String × GatheredEntry) × List Tool),
      name ∈ files → toolFor env name ∈ (files.foldl (gatherStep se env) acc).2 := by
  intro files
  induction files with
  | nil => intro acc h; cases h
  | cons f fs ih =>
    intro acc hmem
    rcases List.mem_cons.mp hmem with rfl | hmem
    · rw [List.foldl_cons]
      refine tools_mono se env _ fs _ ?_
      unfold gatherStep
      rw [if_neg h2, if_neg (by simp [h3])]
      exact List.mem_append_right _ (List.mem_singleton.mpr rfl)
    · rw [List.foldl_cons]
      exact ih _ hmem

theorem toolFor_mem_gather (se : List String → List String) (env : Env) (name : String)
    (h1 : name ∈ env.htmlFiles) (h2 : name ∉ EXCLUDED_FILES)
    (h3 : (get_file_commit_details env name).isEmpty = false) :
    toolFor env name ∈ (gather_links se env).2 := by
  have hperm := perm_stableSortBy
    (fun a b => pyLt b.created a.created)
    (env.htmlFiles.foldl (gatherStep se env) ([], [])).2
  exact hperm.mem_iff.mpr (toolFor_mem_foldl se env name h2 h3 env.htmlFiles ([], []) h1)

/-- In a newest-first history the oldest (last) date is at most the newest
(first) date. -/
theorem pairwise_last_le_head (l : List Commit) (cNew cOld : Commit)
    (hh : l.head? = some cNew) (hl : l.getLast? = some cOld)
    (hp : l.Pairwise (fun a b => pyLe b.date a.date = true)) :
    pyLe cOld.date cNew.date = true := by
  cases l with
  | nil => cases hh
  | cons x rest =>
    have hx : x = cNew := by simpa using hh
    cases rest with
    | nil =>
      have hx' : x = cOld := by simpa using hl
      rw [← hx, ← hx']
      exact pyLe_refl x.date
    | cons y ys =>
      have hmem : cOld ∈ y :: ys := by
        have : (y :: ys).getLast? = some cOld := by
          rwa [List.getLast?_cons_cons] at hl
        exact List.mem_of_mem_getLast? this
      have := (List.pairwise_cons.mp hp).1 cOld hmem
      rwa [hx] at this

theorem gatherStep_skip (se : List String → List String) (env : Env) (name : String)
    (h : get_file_commit_details env name = []) :
    ∀ acc, gatherStep se env acc name = acc := by
  intro acc
  unfold gatherStep
  by_cases h1 : name ∈ EXCLUDED_FILES
  · rw [if_pos h1]
  · rw [if_neg h1, if_pos (by simp [h])]

theorem foldl_skip {α : Type} (f : α → String → α) (x : String)
    (hf : ∀ acc, f acc x = acc) :
    ∀ (l : List String) (acc : α),
      l.foldl f acc = (l.filter (fun n => n != x)).foldl f acc := by
  intro l
  induction l with
  | nil => intro acc; rfl
  | cons a as ih =>
    intro acc
    by_cases ha : a = x
    · rw [List.foldl_cons, ha, hf acc, List.filter_cons,
        if_neg (by simp), ih acc]
    · rw [List.foldl_cons, List.filter_cons, if_pos (by simpa using ha),
        List.foldl_cons, ih (f acc a)]

/-! ## Claim theorems: the harvester and the record builder -/

/-- C4.  For every artifact whose harvested change list is non-empty and
in newest-first order, the produced ToolRecord takes `created` from the
last (oldest) change and `updated` from the first (newest) change, and
`created ≤ updated`. -/
theorem C4_created_updated (se : List String → List String) (env : Env) (name : String)
    (h1 : name ∈ env.htmlFiles) (h2 : name ∉ EXCLUDED_FILES)
    (h3 : get_file_commit_details env name ≠ [])
    (h4 : (get_file_commit_details env name).Pairwise
            (fun a b => pyLe b.date a.date = true)) :
    ∃ t ∈ (gather_links se env).2,
      t.slug = stem name ∧ t.url = name
      ∧ ∃ cNew cOld,
          (get_file_commit_details env name).head? = some cNew
          ∧ (get_file_commit_details env name).getLast? = some cOld
          ∧ t.created = cOld.date ∧ t.updated = cNew.date
          ∧ pyLe t.created t.updated = true := by
  obtain ⟨cNew, hNew⟩ : ∃ c, (get_file_commit_details env name).head? = some c := by
    cases hc : get_file_commit_details env name with
    | nil => exact absurd hc h3
    | cons a l => exact ⟨a, rfl⟩
  obtain ⟨cOld, hOld⟩ : ∃ c, (get_file_commit_details env name).getLast? = some c :=
    Option.isSome_iff_exists.mp (List.getLast?_isSome.mpr h3)
  refine ⟨toolFor env name,
    toolFor_mem_gather se env name h1 h2 (by simp [h3]), rfl, rfl,
    cNew, cOld, hNew, hOld, ?_, ?_, ?_⟩
  · show (match (get_file_commit_details env name).getLast? with
      | some c => c.date | none => "") = cOld.date
    rw [hOld]
  · show (match (get_file_commit_details env name).head? with
      | some c => c.date | none => "") = cNew.date
    rw [hNew]
  · show pyLe (match (get_file_commit_details env name).getLast? with
        | some c => c.date | none => "")
      (match (get_file_commit_details env name).head? with
        | some c => c.date | none => "") = true
    rw [hOld, hNew]
    exact pairwise_last_le_head _ cNew cOld hNew hOld h4

/-- The environment of the witness runs: one tracked artifact
`widget.html` with two commits, newest first (the scenario of the
specification). -/
def envWidget : Env :=
  { htmlFiles := ["widget.html"]
    gitLog := fun _ => .ok
      "h1|2024-03-02T10:00:00+00:00|update, see https://example.com/x\nh2|2024-01-10T09:00:00+00:00|initial"
    readFile := fun _ => none }

theorem C4_witness :
    ∃ t ∈ (gather_links setEnumFirst envWidget).2,
      t.slug = stem "widget.html" ∧ t.url = "widget.html"
      ∧ ∃ cNew cOld,
          (get_file_commit_details envWidget "widget.html").head? = some cNew
          ∧ (get_file_commit_details envWidget "widget.html").getLast? = some cOld
          ∧ t.created = cOld.date ∧ t.updated = cNew.date
          ∧ pyLe t.created t.updated = true :=
  C4_created_updated setEnumFirst envWidget "widget.html"
    (by decide) (by decide) (by decide) (by decide)

/-- C5.  A failing git query yields the empty history, and the pipeline
output is the one of the run in which the file does not exist at all; in
particular neither persisted output mentions the artifact. -/
theorem C5_query_failure (se : List String → List String) (env : Env) (name : String)
    (h : env.gitLog name = .error ()) :
    get_file_commit_details env name = []
    ∧ gather_links se env
        = gather_links se
            { env with htmlFiles := env.htmlFiles.filter (fun n => n != name) }
    ∧ (∀ p ∈ (gather_links se env).1, p.2.file ≠ name)
    ∧ (∀ t ∈ (gather_links se env).2, t.url ≠ name) := by
  have hempty : get_file_commit_details env name = [] := by
    unfold get_file_commit_details
    rw [h]
  have hinv := gather_links_inv se env
  refine ⟨hempty, ?_, ?_, ?_⟩
  · have hstep : gatherStep se
        { env with htmlFiles := env.htmlFiles.filter (fun n => n != name) }
        = gatherStep se env := rfl
    show (gather_links se env) = _
    unfold gather_links
    rw [hstep, ← foldl_skip (gatherStep se env) name (gatherStep_skip se env name hempty)]
  · intro p hp hfile
    exact hinv.1 p hp (hfile ▸ hempty)
  · intro t ht hurl
    exact hinv.2 t ht (hurl ▸ hempty)

/-- A witness environment whose git query always fails. -/
def envGitFails : Env :=
  { htmlFiles := ["widget.html", "gadget.html"]
    gitLog := fun _ => .error ()
    readFile := fun _ => none }

theorem C5_witness :
    get_file_commit_details envGitFails "widget.html" = []
    ∧ gather_links setEnumFirst envGitFails
        = gather_links setEnumFirst
            { envGitFails with
                htmlFiles := envGitFails.htmlFiles.filter (fun n => n != "widget.html") }
    ∧ (∀ p ∈ (gather_links setEnumFirst envGitFails).1, p.2.file ≠ "widget.html")
    ∧ (∀ t ∈ (gather_links setEnumFirst envGitFails).2, t.url ≠ "widget.html") :=
  C5_query_failure setEnumFirst envGitFails "widget.html" rfl

/-- C6.  An artifact with zero harvested changes appears in neither
persisted output: no full-history entry carries its file and no
ToolRecord carries its url. -/
theorem C6_zero_changes (se : List String → List String) (env : Env) (name : String)
    (h : get_file_commit_details env name = []) :
    (∀ p ∈ (gather_links se env).1, p.2.file ≠ name)
    ∧ (∀ t ∈ (gather_links se env).2, t.url ≠ name) := by
  have hinv := gather_links_inv se env
  constructor
  · intro p hp hfile
    exact hinv.1 p hp (hfile ▸ h)
  · intro t ht hurl
    exact hinv.2 t ht (hurl ▸ h)

/-- A witness environment: `gone.html` is tracked but its log is empty
(an untracked path: `git log` exits 0 with no output). -/
def envUntracked : Env :=
  { htmlFiles := ["widget.html", "gone.html"]
    gitLog := fun p =>
      if p == "widget.html" then
        .ok "h1|2024-03-02T10:00:00+00:00|update"
      else .ok ""
    readFile := fun _ => none }

theorem C6_witness :
    (∀ p ∈ (gather_links setEnumFirst envUntracked).1, p.2.file ≠ "gone.html")
    ∧ (∀ t ∈ (gather_links setEnumFirst envUntracked).2, t.url ≠ "gone.html") :=
  C6_zero_changes setEnumFirst envUntracked "gone.html" (by decide)

/-! ## Lemmas: the month grouping -/

theorem any_fst_beq {β : Type} (m : List (String × β)) (k : String) :
    (m.any (fun p => p.1 == k)) = true ↔ k ∈ m.map Prod.fst := by
  rw [List.any_eq_true]
  constructor
  · rintro ⟨p, hp, hpk⟩
    exact List.mem_map.mpr ⟨p, hp, beq_iff_eq.mp hpk⟩
  · intro hk
    obtain ⟨p, hp, hpk⟩ := List.mem_map.mp hk
    exact ⟨p, hp, beq_iff_eq.mpr hpk⟩

theorem map_fst_multiAppend (k : String) (t : Tool) (m : List (String × List Tool)) :
    (multiAppend k t m).map Prod.fst = keyInsert (m.map Prod.fst) k := by
  unfold multiAppend keyInsert
  by_cases h : m.any (fun p => p.1 == k) = true
  · rw [if_pos h, if_pos ((any_fst_beq m k).mp h), List.map_map]
    apply List.map_congr_left
    intro p _
    by_cases hpk : p.1 = k <;> simp [hpk]
  · rw [if_neg h, if_neg (fun hk => h ((any_fst_beq m k).mpr hk))]
    simp

theorem find?_multiAppend_map (k : String) (t : Tool) (k' : String) :
    ∀ (m : List (String × List Tool)),
      (m.map (fun p => if p.1 == k then (p.1, p.2 ++ [t]) else p)).find?
          (fun p => p.1 == k')
        = (m.find? (fun p => p.1 == k')).map
            (fun p => if p.1 == k then (p.1, p.2 ++ [t]) else p) := by
  intro m
  induction m with
  | nil => rfl
  | cons p ps ih =>
    have hfst : ((if p.1 == k then (p.1, p.2 ++ [t]) else p)).1 = p.1 := by
      by_cases h : p.1 = k <;> simp [h]
    rw [List.map_cons]
    by_cases hp : (p.1 == k') = true
    · have e1 : ((if p.1 == k then (p.1, p.2 ++ [t]) else p)
          :: ps.map (fun p => if p.1 == k then (p.1, p.2 ++ [t]) else p)).find?
            (fun q => q.1 == k')
          = some (if p.1 == k then (p.1, p.2 ++ [t]) else p) :=
        List.find?_cons_of_pos _ (by rw [hfst]; exact hp)
      have e2 : (p :: ps).find? (fun q => q.1 == k') = some p :=
        List.find?_cons_of_pos _ hp
      rw [e1, e2]
      rfl
    · have e1 : ((if p.1 == k then (p.1, p.2 ++ [t]) else p)
          :: ps.map (fun p => if p.1 == k then (p.1, p.2 ++ [t]) else p)).find?
            (fun q => q.1 == k')
          = (ps.map (fun p => if p.1 == k then (p.1, p.2 ++ [t]) else p)).find?
              (fun q => q.1 == k') :=
        List.find?_cons_of_neg _ (by rw [hfst]; simpa using hp)
      have e2 : (p :: ps).find? (fun q => q.1 == k') = ps.find? (fun q => q.1 == k') :=
        List.find?_cons_of_neg _ (by simpa using hp)
      rw [e1, e2, ih]

theorem dictLookupL_multiAppend (k : String) (t : Tool)
    (m : List (String × List Tool)) (k' : String) :
    dictLookupL (multiAppend k t m) k'
      = if k' = k then dictLookupL m k ++ [t] else dictLookupL m k' := by
  unfold multiAppend
  by_cases hany : m.any (fun p => p.1 == k) = true
  · rw [if_pos hany]
    unfold dictLookupL
    rw [find?_multiAppend_map]
    cases hfind : m.find? (fun p => p.1 == k') with
    | none =>
      by_cases hk : k' = k
      · subst hk
        obtain ⟨q, hq, hqk⟩ := List.any_eq_true.mp hany
        have hsome : (m.find? (fun p => p.1 == k')).isSome =
            true := List.find?_isSome.mpr ⟨q, hq, hqk⟩
        rw [hfind] at hsome
        cases hsome
      · rw [if_neg hk]
        simp
    | some q =>
      have hq1 := List.find?_some hfind
      have hq1' : q.1 = k' := beq_iff_eq.mp hq1
      by_cases hk : k' = k
      · subst hk
        rw [if_pos rfl, Option.map_some']
        have hc : (q.1 == k') = true := beq_iff_eq.mpr hq1'
        rw [if_pos hc]
        simp [hfind]
      · rw [if_neg hk, Option.map_some']
        have : (q.1 == k) = false := by
          rw [hq1']
          exact beq_eq_false_iff_ne.mpr hk
        rw [this]
        simp
  · rw [if_neg hany]
    unfold dictLookupL
    rw [List.find?_append]
    have hnone : m.find? (fun p => p.1 == k) = none := by
      rw [List.find?_eq_none]
      intro x hx hxk
      exact hany (List.any_eq_true.mpr ⟨x, hx, hxk⟩)
    by_cases hk : k' = k
    · subst hk
      rw [hnone]
      simp
    · have happ : ([((k, [t]) : String × List Tool)]).find? (fun p => p.1 == k') = none := by
        rw [List.find?_eq_none]
        intro x hx hxk
        rw [List.mem_singleton.mp hx] at hxk
        exact hk (beq_iff_eq.mp hxk).symm
      rw [if_neg hk, happ]
      cases hfind : m.find? (fun p => p.1 == k') <;> simp

theorem map_fst_byMonthGroups (tools : List Tool) :
    (byMonthGroups tools).map Prod.fst
      = List.foldl keyInsert []
          ((tools.filter (fun t => t.created != "")).map (fun t => pyTake 7 t.created)) := by
  unfold byMonthGroups
  suffices h : ∀ (l : List Tool) (acc : List (String × List Tool)),
      (l.foldl (fun acc t =>
        if t.created == "" then acc else multiAppend (pyTake 7 t.created) t acc) acc).map
          Prod.fst
        = List.foldl keyInsert (acc.map Prod.fst)
            ((l.filter (fun t => t.created != "")).map (fun t => pyTake 7 t.created)) by
    simpa using h tools []
  intro l
  induction l with
  | nil => intro acc; rfl
  | cons t ts ih =>
    intro acc
    by_cases ht : (t.created == "") = true
    · rw [List.foldl_cons, if_pos ht, List.filter_cons,
        if_neg (by simpa using ht), ih]
    · rw [List.foldl_cons, if_neg ht, List.filter_cons,
        if_pos (by simpa using ht), List.map_cons, List.foldl_cons,
        ih, map_fst_multiAppend]

theorem dictLookupL_byMonthGroups (tools : List Tool) (k : String) :
    dictLookupL (byMonthGroups tools) k
      = tools.filter (fun t => t.created != "" && (pyTake 7 t.created == k)) := by
  unfold byMonthGroups
  suffices h : ∀ (l : List Tool) (acc : List (String × List Tool)),
      dictLookupL (l.foldl (fun acc t =>
        if t.created == "" then acc else multiAppend (pyTake 7 t.created) t acc) acc) k
        = dictLookupL acc k
          ++ l.filter (fun t => t.created != "" && (pyTake 7 t.created == k)) by
    simpa [dictLookupL] using h tools []
  intro l
  induction l with
  | nil => intro acc; simp
  | cons t ts ih =>
    intro acc
    by_cases ht : (t.created == "") = true
    · rw [List.foldl_cons, if_pos ht, List.filter_cons,
        if_neg (by simp [ht, Bool.and_eq_true]; intro h; simp at ht; simp [ht] at h),
        ih]
    · rw [List.foldl_cons, if_neg ht]
      by_cases hk : (pyTake 7 t.created == k) = true
      · rw [show pyTake 7 t.created = k from beq_iff_eq.mp hk,
          List.filter_cons, if_pos (by simp [Bool.and_eq_true, hk]; simpa using ht),
          ih, dictLookupL_multiAppend, if_pos rfl]
        simp
      · rw [List.filter_cons, if_neg (by simp [Bool.and_eq_true, hk]),
          ih, dictLookupL_multiAppend,
          if_neg (fun h => by simp [beq_iff_eq] at hk; exact hk h.symm)]

theorem nodup_byMonthKeys (tools : List Tool) :
    ((byMonthGroups tools).map Prod.fst).Nodup := by
  rw [map_fst_byMonthGroups]
  exact nodup_foldl_keyInsert _ [] (by simp)

theorem mem_byMonthKeys (tools : List Tool) (k : String) :
    k ∈ (byMonthGroups tools).map Prod.fst
      ↔ k ∈ (tools.filter (fun t => t.created != "")).map (fun t => pyTake 7 t.created) := by
  rw [map_fst_byMonthGroups, mem_foldl_keyInsert]
  simp

theorem sortedMonths_pairwise (tools : List Tool) :
    (sortedMonthsOf tools).Pairwise (fun a b => pyLe b a = true) := by
  unfold sortedMonthsOf
  apply pairwise_stableSortBy
  · intro a b h
    exact pyLe_of_pyLt h
  · intro a b h
    exact pyLe_of_not_pyLt h
  · intro a b c h1 h2
    exact pyLe_trans h2 h1

theorem sortAscCreated_pairwise (l : List Tool) :
    (stableSortBy (fun a b => pyLt a.created b.created) l).Pairwise
      (fun a b => pyLe a.created b.created = true) := by
  apply pairwise_stableSortBy
  · intro a b h
    exact pyLe_of_pyLt h
  · intro a b h
    exact pyLe_of_not_pyLt h
  · intro a b c h1 h2
    exact pyLe_trans h1 h2

theorem sortToolsByCreatedDesc_pairwise (l : List Tool) :
    (sortToolsByCreatedDesc l).Pairwise
      (fun a b => pyLe b.created a.created = true) := by
  unfold sortToolsByCreatedDesc
  apply pairwise_stableSortBy
  · intro a b h
    exact pyLe_of_pyLt h
  · intro a b h
    exact pyLe_of_not_pyLt h
  · intro a b c h1 h2
    exact pyLe_trans h2 h1

theorem sortToolsByUpdatedDesc_pairwise (l : List Tool) :
    (sortToolsByUpdatedDesc l).Pairwise
      (fun a b => pyLe b.updated a.updated = true) := by
  unfold sortToolsByUpdatedDesc
  apply pairwise_stableSortBy
  · intro a b h
    exact pyLe_of_pyLt h
  · intro a b h
    exact pyLe_of_not_pyLt h
  · intro a b c h1 h2
    exact pyLe_trans h2 h1

/-- C7.  The By-Month renderer partitions the records: every ToolRecord
with non-empty created date lies in the bucket keyed by the first seven
characters of its created date and in no other; records with empty
created date lie in no bucket; the emitted bucket keys are strictly
decreasing; within each bucket the records are non-decreasing in created
date. -/
theorem C7_by_month_partition (tools : List Tool) :
    (∀ t ∈ tools, t.created ≠ "" →
      (∃ l, (pyTake 7 t.created, l) ∈ byMonthSections tools ∧ t ∈ l)
      ∧ (∀ k l, (k, l) ∈ byMonthSections tools → t ∈ l → k = pyTake 7 t.created))
    ∧ (∀ t ∈ tools, t.created = "" →
        ∀ k l, (k, l) ∈ byMonthSections tools → t ∉ l)
    ∧ ((byMonthSections tools).map Prod.fst).Pairwise (fun a b => pyLt b a = true)
    ∧ (∀ k l, (k, l) ∈ byMonthSections tools →
        l.Pairwise (fun a b => pyLe a.created b.created = true)) := by
  have hsections : ∀ k l, (k, l) ∈ byMonthSections tools →
      l = stableSortBy (fun a b => pyLt a.created b.created)
            (dictLookupL (byMonthGroups tools) k) := by
    intro k l hkl
    obtain ⟨k0, _, hk0⟩ := List.mem_map.mp hkl
    obtain ⟨hk0k, hk0l⟩ := Prod.mk.injEq .. ▸ hk0
    rw [← hk0l, hk0k]
  have hmemsec : ∀ k l, (k, l) ∈ byMonthSections tools → ∀ t, t ∈ l ↔
      t ∈ tools.filter (fun t => t.created != "" && (pyTake 7 t.created == k)) := by
    intro k l hkl t
    rw [hsections k l hkl, (perm_stableSortBy _ _).mem_iff, dictLookupL_byMonthGroups]
  refine ⟨?_, ?_, ?_, ?_⟩
  · intro t ht htc
    constructor
    · have hkey : pyTake 7 t.created ∈ sortedMonthsOf tools := by
        rw [sortedMonthsOf, (perm_stableSortBy _ _).mem_iff, mem_byMonthKeys]
        exact List.mem_map_of_mem _ (List.mem_filter.mpr ⟨ht, by simpa using htc⟩)
      refine ⟨stableSortBy (fun a b => pyLt a.created b.created)
        (dictLookupL (byMonthGroups tools) (pyTake 7 t.created)), ?_, ?_⟩
      · exact List.mem_map_of_mem _ hkey
      · rw [(perm_stableSortBy _ _).mem_iff, dictLookupL_byMonthGroups]
        exact List.mem_filter.mpr ⟨ht, by simp [Bool.and_eq_true]; simpa using htc⟩
    · intro k l hkl htl
      have := List.mem_filter.mp ((hmemsec k l hkl t).mp htl)
      have hand := this.2
      rw [Bool.and_eq_true] at hand
      exact (beq_iff_eq.mp hand.2).symm
  · intro t ht htc k l hkl htl
    have := List.mem_filter.mp ((hmemsec k l hkl t).mp htl)
    have hand := this.2
    rw [Bool.and_eq_true] at hand
    have := hand.1
    rw [bne_iff_ne] at this
    exact this htc
  · have hfst : (byMonthSections tools).map Prod.fst = sortedMonthsOf tools := by
      unfold byMonthSections
      rw [List.map_map]
      rw [show (Prod.fst ∘ fun k =>
          (k, stableSortBy (fun a b => pyLt a.created b.created)
                (dictLookupL (byMonthGroups tools) k))) = id from rfl]
      exact List.map_id _
    rw [hfst]
    have hle := sortedMonths_pairwise tools
    have hnd : (sortedMonthsOf tools).Nodup := by
      unfold sortedMonthsOf
      exact ((perm_stableSortBy _ _).nodup_iff).mpr (nodup_byMonthKeys tools)
    exact (hle.and hnd).imp (fun h => pyLt_of_pyLe_of_ne h.1 (Ne.symm h.2))
  · intro k l hkl
    rw [hsections k l hkl]
    exact sortAscCreated_pairwise _

/-- The ToolRecord of the specification scenario. -/
def toolWidget : Tool :=
  { slug := "widget", title := "Widget", description := "", url := "widget.html"
    created := "2024-01-10T09:00:00+00:00", updated := "2024-03-02T10:00:00+00:00" }

theorem C7_witness :
    ∃ l, (pyTake 7 toolWidget.created, l) ∈ byMonthSections [toolWidget]
      ∧ toolWidget ∈ l :=
  (((C7_by_month_partition [toolWidget]).1) toolWidget (by decide) (by decide)).1

/-- C8.  The By-Month renderer emits a description of length at most 150
verbatim, and a longer one as exactly its first 150 characters followed
by the ellipsis marker; the emitted entry embeds precisely that string. -/
theorem C8_truncation (s : String) (t : Tool) :
    (pyLen s ≤ 150 → shortDescOf s = s)
    ∧ (150 < pyLen s → shortDescOf s = pyTake 150 s ++ "...")
    ∧ (t.description ≠ "" →
        renderToolItem t
          = "<div class=\"tool-item\">\n"
            ++ "<a href=\"" ++ t.url ++ "\">" ++ t.title ++ "</a>\n"
            ++ ("<span class=\"tool-description\">" ++ shortDescOf t.description
                ++ "</span>\n")
            ++ "<span class=\"tool-links\"><a href=\"colophon.html#" ++ t.slug
            ++ "\">history</a></span>\n"
            ++ "</div>\n") := by
  refine ⟨?_, ?_, ?_⟩
  · intro h
    unfold shortDescOf
    rw [if_neg (by omega)]
  · intro h
    unfold shortDescOf
    rw [if_pos h]
  · intro h
    unfold renderToolItem
    rw [if_neg (by simpa [beq_iff_eq] using h)]

/-- A 170-character description. -/
def longDesc : String := ⟨List.replicate 170 'a'⟩

/-- A ToolRecord with a non-empty description. -/
def toolDesc : Tool :=
  { slug := "widget", title := "Widget", description := "Neat tool."
    url := "widget.html", created := "2024-01-10T09:00:00+00:00"
    updated := "2024-03-02T10:00:00+00:00" }

theorem C8_witness :
    shortDescOf longDesc = pyTake 150 longDesc ++ "..."
    ∧ shortDescOf "short" = "short"
    ∧ renderToolItem toolDesc
        = "<div class=\"tool-item\">\n"
          ++ "<a href=\"" ++ toolDesc.url ++ "\">" ++ toolDesc.title ++ "</a>\n"
          ++ ("<span class=\"tool-description\">" ++ shortDescOf toolDesc.description
              ++ "</span>\n")
          ++ "<span class=\"tool-links\"><a href=\"colophon.html#" ++ toolDesc.slug
          ++ "\">history</a></span>\n"
          ++ "</div>\n" :=
  ⟨(C8_truncation longDesc toolDesc).2.1 (by decide),
   (C8_truncation "short" toolDesc).1 (by decide),
   (C8_truncation "short" toolDesc).2.2 (by decide)⟩

/-! ## Lemmas: the index digests -/

theorem recentlyUpdatedLoop_eq (slugs : List String) :
    ∀ (l acc : List Tool), acc.length < RECENT_LIMIT →
      recentlyUpdatedLoop slugs l acc
        = acc.reverse
          ++ (l.filter (fun t => !(slugs.contains t.slug))).take
              (RECENT_LIMIT - acc.length) := by
  intro l
  induction l with
  | nil => intro acc h; simp [recentlyUpdatedLoop]
  | cons t ts ih =>
    intro acc h
    rw [show recentlyUpdatedLoop slugs (t :: ts) acc
        = if slugs.contains t.slug = true then recentlyUpdatedLoop slugs ts acc
          else if RECENT_LIMIT ≤ (t :: acc).length then (t :: acc).reverse
          else recentlyUpdatedLoop slugs ts (t :: acc) from rfl]
    by_cases hc : slugs.contains t.slug = true
    · rw [if_pos hc, ih acc h, List.filter_cons, if_neg (by simpa using hc)]
    · rw [if_neg hc]
      by_cases hstop : RECENT_LIMIT ≤ (t :: acc).length
      · rw [if_pos hstop, List.filter_cons, if_pos (by simpa using hc)]
        have hstop' : RECENT_LIMIT ≤ acc.length + 1 := by simpa using hstop
        have hone : RECENT_LIMIT - acc.length = 1 := by omega
        rw [hone]
        simp [List.reverse_cons]
      · rw [if_neg hstop]
        have h' : (t :: acc).length < RECENT_LIMIT := Nat.not_le.mp hstop
        rw [ih (t :: acc) h', List.filter_cons, if_pos (by simpa using hc)]
        have hsub : RECENT_LIMIT - acc.length
            = (RECENT_LIMIT - (t :: acc).length) + 1 := by
          simp only [List.length_cons]
          omega
        rw [hsub, List.take_succ_cons]
        simp [List.reverse_cons, List.append_assoc]

/-- C9.  The recently-added digest is the first five records of the
created-descending stable sort of the pool (a sorted permutation), and
the recently-updated digest is the first five records of the
updated-descending stable sort after removing the slugs already shown as
recently added. -/
theorem C9_digests (tools : List Tool) :
    byCreatedOf tools = (sortToolsByCreatedDesc tools).take RECENT_LIMIT
    ∧ (sortToolsByCreatedDesc tools).Pairwise
        (fun a b => pyLe b.created a.created = true)
    ∧ (sortToolsByCreatedDesc tools).Perm tools
    ∧ recentlyUpdatedOf tools
        = ((sortToolsByUpdatedDesc tools).filter
            (fun t => !(((byCreatedOf tools).map Tool.slug).contains t.slug))).take
            RECENT_LIMIT
    ∧ (sortToolsByUpdatedDesc tools).Pairwise
        (fun a b => pyLe b.updated a.updated = true)
    ∧ (sortToolsByUpdatedDesc tools).Perm tools := by
  refine ⟨rfl, sortToolsByCreatedDesc_pairwise tools, perm_stableSortBy _ _, ?_,
    sortToolsByUpdatedDesc_pairwise tools, perm_stableSortBy _ _⟩
  unfold recentlyUpdatedOf
  rw [recentlyUpdatedLoop_eq ((byCreatedOf tools).map Tool.slug)
    (sortToolsByUpdatedDesc tools) [] (by decide)]
  simp

/-- C10.  With at most five records every record is recently added, the
recently-updated list is empty, and the digest contains no Recently
Updated section. -/
theorem C10_small_pool (tools : List Tool) (h : tools.length ≤ RECENT_LIMIT) :
    (∀ t ∈ tools, t ∈ byCreatedOf tools)
    ∧ recentlyUpdatedOf tools = []
    ∧ build_recent_section tools
        = if tools.isEmpty then ""
          else "<div class=\"recent-section\">\n"
            ++ "<h2>Recently Added</h2>\n<ul>\n"
            ++ recentListHtml Tool.created (byCreatedOf tools) ++ "</ul>\n"
            ++ "</div>" := by
  have hperm : (sortToolsByCreatedDesc tools).Perm tools := perm_stableSortBy _ _
  have hall : ∀ t ∈ tools, t ∈ byCreatedOf tools := by
    intro t ht
    unfold byCreatedOf
    rw [List.take_of_length_le (by rw [hperm.length_eq]; exact h)]
    exact hperm.mem_iff.mpr ht
  have hupd : recentlyUpdatedOf tools = [] := by
    unfold recentlyUpdatedOf
    rw [recentlyUpdatedLoop_eq ((byCreatedOf tools).map Tool.slug)
      (sortToolsByUpdatedDesc tools) [] (by decide)]
    have hfil : (sortToolsByUpdatedDesc tools).filter
        (fun t => !(((byCreatedOf tools).map Tool.slug).contains t.slug)) = [] := by
      rw [List.filter_eq_nil_iff]
      intro t ht
      have ht' : t ∈ tools := (perm_stableSortBy _ _).mem_iff.mp ht
      have hmem : t.slug ∈ (byCreatedOf tools).map Tool.slug :=
        List.mem_map_of_mem _ (hall t ht')
      simp [hmem]
    rw [hfil]
    simp
  refine ⟨hall, hupd, ?_⟩
  unfold build_recent_section
  by_cases he : tools.isEmpty = true
  · rw [if_pos he, if_pos he]
  · rw [if_neg he, if_neg he, hupd]
    rw [if_pos (by simp)]
    rw [str_append_empty]

theorem C10_witness :
    (∀ t ∈ [toolWidget], t ∈ byCreatedOf [toolWidget])
    ∧ recentlyUpdatedOf [toolWidget] = []
    ∧ build_recent_section [toolWidget]
        = if ([toolWidget] : List Tool).isEmpty then ""
          else "<div class=\"recent-section\">\n"
            ++ "<h2>Recently Added</h2>\n<ul>\n"
            ++ recentListHtml Tool.created (byCreatedOf [toolWidget]) ++ "</ul>\n"
            ++ "</div>" :=
  C10_small_pool [toolWidget] (by decide)

/-- C2.  Each of the four argument-free runs reports a missing required
input file with a printed diagnostic and terminates without producing
its output document. -/
theorem C2_missing_inputs :
    build_by_month none
      = (none, ["tools.json not found - run gather_links.py first"])
    ∧ (∀ toolsJson, build_colophon none toolsJson
        = (none, ["gathered_links.json not found - run gather_links.py first"]))
    ∧ (∀ (conv : String → String) toolsJson, build_index conv none toolsJson
        = (none, ["README.md not found"]))
    ∧ build_dates none
      = (none, ["gathered_links.json not found - run gather_links.py first"]) :=
  ⟨rfl, fun _ => rfl, fun _ _ => rfl, rfl⟩

/-- The harvested state of the C1 run: one artifact whose single commit
message carries two distinct URLs. -/
def envTwoUrls : Env :=
  { htmlFiles := ["widget.html"]
    gitLog := fun _ => .ok
      "h1|2024-03-02T10:00:00+00:00|update, see https://example.com/a and https://example.com/b"
    readFile := fun _ => none }

/-- C1.  The pipeline output is NOT independent of the set-iteration
order: both enumerations are admissible Python set orders (distinct hash
seeds), yet on the same harvested state they persist the two URLs of
`all_urls` in different sequences, so two runs need not be
byte-identical. -/
theorem C1_set_order_dependence :
    PySetEnum setEnumFirst ∧ PySetEnum setEnumRev
    ∧ (gather_links setEnumFirst envTwoUrls).1.map (fun p => p.2.all_urls)
        = [["https://example.com/a", "https://example.com/b"]]
    ∧ (gather_links setEnumRev envTwoUrls).1.map (fun p => p.2.all_urls)
        = [["https://example.com/b", "https://example.com/a"]]
    ∧ gather_links setEnumFirst envTwoUrls ≠ gather_links setEnumRev envTwoUrls :=
  ⟨pySetEnum_setEnumFirst, pySetEnum_setEnumRev, by decide, by decide, by decide⟩

/-- C3 (counterexample).  On a document whose header line sits inside
the paragraph, the code drops the header line while the claimed
leading-headers-only grammar keeps it. -/
theorem C3_counterexample :
    extract_description (some "a\n# h\nb") = "a b"
    ∧ spec_description_claim (some "a\n# h\nb") = "a # h b"
    ∧ extract_description (some "a\n# h\nb")
        ≠ spec_description_claim (some "a\n# h\nb") :=
  ⟨by decide, by decide, by decide⟩

/-- C3 (amended).  The extracted description skips header lines wherever
they occur (not only leading ones), accumulates the remaining stripped
consecutive non-blank lines, stops at the first blank line after any
content, and joins them with single spaces; an absent companion document
yields the empty string. -/
theorem C3_description_amended (docs : Option String) :
    extract_description docs = spec_description_amended docs :=
  extract_description_eq_amended docs

end Tools
